import Mathlib

/-!
Shallow embedding of `code_analyzer.py` (Static Code Analyzer).

The source is a single Python file.  Lines of a file are modelled exactly as
Python file iteration yields them: each element of a `List String` is one raw
line, including its trailing newline character when the line is
newline-terminated (`pyLines` performs that split on a whole file text).
Each regular-expression use in the source is translated into an explicit
character-list function; the correspondence is documented at each definition.
Python dictionaries keyed by line number are modelled as association lists in
insertion order (`dinsert` / `minsert` reproduce Python dict assignment and
`errors_in_file[ln].append`).  `ast.parse` is an external collaborator: its
outcome is passed to `check_file` as an `Except` value, mirroring the fact
that a raised `SyntaxError` propagates out of `check_file` uncaught.
-/

/-- Python `\s` on the characters that occur in source text
(space, tab, newline, carriage return, form feed, vertical tab). -/
def isPyWhitespace (c : Char) : Bool :=
  c = ' ' || c = '\t' || c = '\n' || c = '\r' || c = '\x0c' || c = '\x0b'

/-- Python `\w` (ASCII range): letters, digits, underscore. -/
def isWordChar (c : Char) : Bool :=
  ('a' ≤ c && c ≤ 'z') || ('A' ≤ c && c ≤ 'Z') || ('0' ≤ c && c ≤ '9') || c = '_'

/-- One character of the class `[a-z0-9_]` from the `snake_case` pattern. -/
def isSnakeChar (c : Char) : Bool :=
  ('a' ≤ c && c ≤ 'z') || ('0' ≤ c && c ≤ '9') || c = '_'

/-- `re.match("^[a-z0-9_]+$", s)` succeeds: `s` is nonempty and every
character is in `[a-z0-9_]` (names never contain a newline). -/
def matchesSnakeCase (s : String) : Bool :=
  !s.data.isEmpty && s.data.all isSnakeChar

/-- Splits a file text into lines the way Python text-file iteration does:
each `'\n'` terminates a line and is kept in it; a final fragment without a
newline is a line of its own; an empty text yields no lines. -/
def pyLinesAux (acc : List Char) : List Char → List (List Char)
  | [] => if acc.isEmpty then [] else [acc.reverse]
  | c :: rest =>
    if c = '\n' then (acc.reverse ++ ['\n']) :: pyLinesAux [] rest
    else pyLinesAux (c :: acc) rest

/-- The raw lines of a file text, trailing newlines included. -/
def pyLines (s : String) : List String :=
  (pyLinesAux [] s.data).map String.mk

/-- `line_length_check`: `len(line) > 79` on the raw line (so a trailing
newline character is counted by `len`). -/
def line_length_check (line_number : Nat) (line : String) : Option (Nat × String) :=
  if line.length > 79 then some (line_number, "S001 Too long") else none

/-- `indentation_check`: `len(line) - len(line.lstrip(" "))`, flagged when the
count is nonzero and not a multiple of four. -/
def indentation_check (line_number : Nat) (line : String) : Option (Nat × String) :=
  let indents := (line.data.takeWhile (fun c => c = ' ')).length
  if indents % 4 ≠ 0 && indents ≠ 0 then
    some (line_number, "S002 Indentation is not a multiple of four")
  else none

/-- `re.sub("(?s)#.*", "", line)`: everything from the first `#` (inclusive)
to the end of the string is removed. -/
def dropFromHash (cs : List Char) : List Char := cs.takeWhile (fun c => c ≠ '#')

/-- `str.rstrip(" ")`: removes trailing space characters only. -/
def rstripSpaces (cs : List Char) : List Char :=
  (cs.reverse.dropWhile (fun c => c = ' ')).reverse

/-- `re.search(";$", s)`: a `;` at the very end of the string, or immediately
before a single trailing newline (Python `$` semantics without MULTILINE). -/
def endsSemi (cs : List Char) : Bool :=
  match cs.reverse with
  | ';' :: _ => true
  | '\n' :: ';' :: _ => true
  | _ => false

/-- `semicolon_check`: strip the comment, strip trailing spaces, then look
for `;` at end-of-line. -/
def semicolon_check (line_number : Nat) (line : String) : Option (Nat × String) :=
  if endsSemi (rstripSpaces (dropFromHash line.data)) then
    some (line_number, "S003 Unnecessary semicolon after a statement")
  else none

/-- The run of literal spaces at the head of `cs` followed by `#`, as matched
by the tail of the pattern `\S *#` once its `\S` has consumed one character:
returns the number of spaces when the first non-space character after the run
is `#`, otherwise no match. -/
def spacesThenHash (cs : List Char) : Option Nat :=
  match cs.dropWhile (fun c => c = ' ') with
  | '#' :: _ => some (cs.takeWhile (fun c => c = ' ')).length
  | _ => none

/-- `re.findall("\S *#", line)[0]`, reduced to what the caller uses: the
number of spaces inside the leftmost match of `\S *#` (a non-whitespace
character, then only spaces, then `#`).  Scanning position order reproduces
the regex engine's leftmost-match rule. -/
def firstInlineHashSpaces : List Char → Option Nat
  | [] => none
  | c :: rest =>
    if isPyWhitespace c then firstInlineHashSpaces rest
    else
      match spacesThenHash rest with
      | some k => some k
      | none => firstInlineHashSpaces rest

/-- Message text of the S004 diagnostic. -/
def s004msg : String := "S004 At least two spaces before inline comments required"

/-- `comment_space_check`: fewer than two spaces inside the leftmost
`\S *#` match triggers S004; no match (`IndexError`) abstains. -/
def comment_space_check (line_number : Nat) (line : String) : Option (Nat × String) :=
  match firstInlineHashSpaces line.data with
  | some k => if k < 2 then some (line_number, s004msg) else none
  | none => none

/-- The four characters `TODO` in any case at the head of the list. -/
def todoAt (cs : List Char) : Bool :=
  match cs with
  | a :: b :: c :: d :: _ =>
    (a = 't' || a = 'T') && (b = 'o' || b = 'O') &&
    (c = 'd' || c = 'D') && (d = 'o' || d = 'O')
  | _ => false

/-- `TODO` (case-insensitive) occurs somewhere in the list. -/
def containsTodo : List Char → Bool
  | [] => false
  | c :: rest => todoAt (c :: rest) || containsTodo rest

/-- `re.search("#.*TODO", line, re.IGNORECASE)`: a `#` followed, before any
newline, by the substring `TODO` in any case (`.` does not cross `\n`). -/
def hashThenTodo : List Char → Bool
  | [] => false
  | c :: rest =>
    (c = '#' && containsTodo (rest.takeWhile (fun x => x ≠ '\n'))) || hashThenTodo rest

/-- `todo_check`. -/
def todo_check (line_number : Nat) (line : String) : Option (Nat × String) :=
  if hashThenTodo line.data then some (line_number, "S005 TODO found") else none

/-- Strips a literal keyword from the head of the list, character by
character; `none` when the list does not start with the keyword. -/
def dropKw : List Char → List Char → Option (List Char)
  | [], cs => some cs
  | _ :: _, [] => none
  | k :: ks, c :: cs => if c = k then dropKw ks cs else none

/-- The line after its leading literal spaces, as consumed by `^ *` (the
alternatives `def`/`class` cannot start with a space, so the greedy `*`
consumes exactly the leading spaces). -/
def indentRest (line : String) : List Char := line.data.dropWhile (fun c => c = ' ')

/-- `re.match("^ *(def|class)", line)` succeeds. -/
def kwStart (t : List Char) : Bool :=
  (dropKw "def".data t).isSome || (dropKw "class".data t).isSome

/-- `re.match("^ *(def|class) [\w]", line)` succeeds: the keyword letters,
one space, then a word character. -/
def kwSpaceWord (t : List Char) : Bool :=
  (match dropKw "def".data t with
   | some (c0 :: c1 :: _) => c0 = ' ' && isWordChar c1
   | _ => false) ||
  (match dropKw "class".data t with
   | some (c0 :: c1 :: _) => c0 = ' ' && isWordChar c1
   | _ => false)

/-- `re.findall("(?! )\w*", line)[0]`: the maximal `\w` run at the first
position that is not a literal space. -/
def firstWord (line : String) : String :=
  String.mk ((indentRest line).takeWhile isWordChar)

/-- The shape test `kwSpaceWord` applies to the text after the keyword
letters: one space, then a word character. -/
def oneSpaceWordGuard (rest : List Char) : Bool :=
  match rest with
  | c0 :: c1 :: _ => c0 = ' ' && isWordChar c1
  | _ => false

/-- `construction_space_check`. -/
def construction_space_check (line_number : Nat) (line : String) : Option (Nat × String) :=
  let t := indentRest line
  if kwStart t then
    if kwSpaceWord t then none
    else some (line_number, "S007 Too many spaces after " ++ firstWord line)
  else none

/-- All matches of `re.findall("(?! )\w*", cs)`: at every scan position whose
character is not a literal space the maximal (possibly empty) `\w` run is
collected, an empty match advancing the scan by one character; one final
empty match is produced at end-of-string. -/
def nsWords : List Char → List (List Char)
  | [] => [[]]
  | c :: rest =>
    if c = ' ' then nsWords rest
    else
      match (c :: rest).takeWhile isWordChar with
      | [] => [] :: nsWords rest
      | w₀ :: w => (w₀ :: w) :: nsWords ((c :: rest).drop (w₀ :: w).length)
termination_by cs => cs.length
decreasing_by
  all_goals simp_all
  omega

/-- `re.sub("^__|__$", "", s)`: one leading and then one trailing double
underscore are removed (the scan is non-overlapping and left-to-right). -/
def stripDunder (s : List Char) : List Char :=
  let s₁ := if s.take 2 = ['_', '_'] then s.drop 2 else s
  if 2 ≤ s₁.length ∧ s₁.drop (s₁.length - 2) = ['_', '_'] then s₁.take (s₁.length - 2)
  else s₁

/-- `re.match("^[A-Z][A-Za-z]*$", s)` succeeds. -/
def matchesCamel (s : List Char) : Bool :=
  match s with
  | [] => false
  | c :: rest =>
    ('A' ≤ c && c ≤ 'Z') &&
    rest.all (fun x => ('A' ≤ x && x ≤ 'Z') || ('a' ≤ x && x ≤ 'z'))

/-- `class_case_check`: only lines beginning exactly with `class`; the class
name is the second `(?! )\w*` match, dunder markers stripped. -/
def class_case_check (line_number : Nat) (line : String) : Option (Nat × String) :=
  if (dropKw "class".data line.data).isSome then
    let nm := stripDunder ((nsWords line.data).getD 1 [])
    if matchesCamel nm then none
    else some (line_number, "S008 Class name " ++ String.mk nm ++ " should use CamelCase")
  else none

/-- `re.match("^\s*$", line)` succeeds: the whole raw line is whitespace
(an empty line also matches). -/
def isBlankLine (line : String) : Bool := line.data.all isPyWhitespace

/-- Message text of the S006 diagnostic. -/
def s006msg : String := "S006 More than two blank lines used before this line"

/-- The loop body of `blank_line_check`: `nb` is `num_blanks`, `i` the
0-based index of the next line.  While `nb ≤ 2` a blank line increments the
counter and a non-blank line resets it; once `nb` exceeds 2, the next
non-blank line is flagged (1-based number `i + 1`) and the counter resets,
while further blank lines leave the counter unchanged. -/
def blankAux (nb : Nat) (i : Nat) : List String → List (Nat × String)
  | [] => []
  | line :: rest =>
    if nb ≤ 2 then
      if isBlankLine line then blankAux (nb + 1) (i + 1) rest
      else blankAux 0 (i + 1) rest
    else
      if isBlankLine line then blankAux nb (i + 1) rest
      else (i + 1, s006msg) :: blankAux 0 (i + 1) rest

/-- `blank_line_check`: the full scan starting with `num_blanks = 0`.  The
returned association list is `blanks_dict` in insertion order (its keys are
strictly increasing, so plain consing models the dict exactly). -/
def blank_line_check (lines : List String) : List (Nat × String) :=
  blankAux 0 0 lines

/-- An `ast.arg` node: its `.arg` name and `.lineno`. -/
structure PyArg where
  arg : String
  lineno : Nat

/-- A default-value expression of a function's arguments.  The three mutable
literal kinds are the ones `isinstance(dval, (ast.List, ast.Set, ast.Dict))`
accepts; every other expression kind is opaque to the checks. -/
inductive PyExpr where
  | listLit (lineno : Nat)
  | setLit (lineno : Nat)
  | dictLit (lineno : Nat)
  | otherExpr (lineno : Nat)

/-- The `.lineno` of a default-value expression. -/
def PyExpr.lineno : PyExpr → Nat
  | .listLit n => n
  | .setLit n => n
  | .dictLit n => n
  | .otherExpr n => n

/-- An assignment target.  Only `ast.Name` carries an `.id`; on any other
target kind the attribute access `targets[0].id` raises `AttributeError`. -/
inductive PyTarget where
  | nameT (id : String)
  | attributeT
  | subscriptT
  | tupleT

mutual
/-- A node of the parsed syntax tree.  The variants are the node kinds the
`isinstance` dispatch in `ast_checks` distinguishes; `otherNode` stands for
every other kind (`Module` is kept separate only for readability — it takes
the same branch as `otherNode`).  `children` are the node's child nodes in
`ast.iter_child_nodes` order; for a real `FunctionDef` the first child is its
`arguments` node, followed by the body statements. -/
inductive PyNode where
  | moduleNode (children : PyForest)
  | functionDefNode (lineno : Nat) (name : String) (children : PyForest)
  | argumentsNode (args : List PyArg) (defaults : List PyExpr) (children : PyForest)
  | assignNode (lineno : Nat) (targets : List PyTarget) (children : PyForest)
  | otherNode (children : PyForest)
/-- A list of sibling nodes (a separate type so that the tree is a mutual
inductive with fully structural recursion). -/
inductive PyForest where
  | nil
  | cons (hd : PyNode) (tl : PyForest)
end

/-- The forest of a node's children as a plain list. -/
def PyForest.toList : PyForest → List PyNode
  | .nil => []
  | .cons n rest => n :: PyForest.toList rest

/-- `ast.iter_child_nodes`, for the queue extension step of `ast.walk`. -/
def PyNode.childList : PyNode → List PyNode
  | .moduleNode cs => cs.toList
  | .functionDefNode _ _ cs => cs.toList
  | .argumentsNode _ _ cs => cs.toList
  | .assignNode _ _ cs => cs.toList
  | .otherNode cs => cs.toList

mutual
/-- Size of a node, for the termination of the breadth-first walk. -/
def nodeSize : PyNode → Nat
  | .moduleNode cs => 1 + forestSize cs
  | .functionDefNode _ _ cs => 1 + forestSize cs
  | .argumentsNode _ _ cs => 1 + forestSize cs
  | .assignNode _ _ cs => 1 + forestSize cs
  | .otherNode cs => 1 + forestSize cs
/-- Size of a forest. -/
def forestSize : PyForest → Nat
  | .nil => 0
  | .cons n rest => nodeSize n + forestSize rest
end

/-- Total size of a queue of nodes. -/
def queueSize : List PyNode → Nat
  | [] => 0
  | n :: ns => nodeSize n + queueSize ns

theorem queueSize_toList : ∀ f : PyForest, queueSize f.toList = forestSize f
  | .nil => by simp [PyForest.toList, queueSize, forestSize]
  | .cons n rest => by
      simp [PyForest.toList, queueSize, forestSize, queueSize_toList rest]

theorem queueSize_childList_lt (n : PyNode) : queueSize n.childList < nodeSize n := by
  cases n <;> simp [PyNode.childList, queueSize_toList, nodeSize, forestSize]

theorem queueSize_append (a b : List PyNode) :
    queueSize (a ++ b) = queueSize a + queueSize b := by
  induction a with
  | nil => simp [queueSize]
  | cons x xs ih => simp [queueSize, ih]; omega

/-- `ast.walk(tree)`: a deque seeded with the root; each step yields the
front node and appends its children to the back (breadth-first order). -/
def bfsWalk : List PyNode → List PyNode
  | [] => []
  | n :: ns => n :: bfsWalk (ns ++ n.childList)
termination_by q => queueSize q
decreasing_by
  simp [queueSize_append, queueSize]
  have h := queueSize_childList_lt n
  omega

/-- The `ast_errors_dict`: a Python dict keyed by line number, kept in
insertion order. -/
abbrev Dict := List (Nat × String)

/-- Python dict assignment `d[k] = v`: an existing key keeps its position and
gets the new value; a new key is appended. -/
def dinsert (d : Dict) (k : Nat) (v : String) : Dict :=
  match d with
  | [] => [(k, v)]
  | (k', v') :: rest => if k' = k then (k', v) :: rest else (k', v') :: dinsert rest k v

/-- Python dict lookup `d[k]` as an `Option`. -/
def dlookup (d : Dict) (k : Nat) : Option String :=
  match d with
  | [] => none
  | (k', v') :: rest => if k' = k then some v' else dlookup rest k

/-- `function_case_check`: snake_case for `FunctionDef` names, writing S009
into the dict slot of the function's line. -/
def function_case_check (d : Dict) (lineno : Nat) (name : String) : Dict :=
  if matchesSnakeCase name then d
  else dinsert d lineno ("S009 Function name " ++ name ++ " should use snake_case")

/-- `argument_case_check`: snake_case for `ast.arg` names, writing S010. -/
def argument_case_check (d : Dict) (a : PyArg) : Dict :=
  if matchesSnakeCase a.arg then d
  else dinsert d a.lineno ("S010 Argument name " ++ a.arg ++ " should be snake_case")

/-- `variable_case_check`: `var.targets[0].id` exists only on a `Name`
target; the `AttributeError` on any other target kind is caught and ignored.
(`ast.Assign` guarantees at least one target, so the missing-head case is
unreachable on real trees.) -/
def variable_case_check (d : Dict) (lineno : Nat) (targets : List PyTarget) : Dict :=
  match targets.head? with
  | some (PyTarget.nameT id) =>
    if matchesSnakeCase id then d
    else dinsert d lineno ("S011 Variable name " ++ id ++ " should use snake_case")
  | _ => d

/-- The mutable-literal test of `defval_multability_check`:
`isinstance(dval, (ast.List, ast.Set, ast.Dict))`. -/
def isMutableLit : PyExpr → Bool
  | .listLit _ => true
  | .setLit _ => true
  | .dictLit _ => true
  | .otherExpr _ => false

/-- `defval_multability_check`: on a mutable literal it writes S012 into the
slot of the default's line and reports a hit (the caller's loop breaks). -/
def defval_multability_check (d : Dict) (e : PyExpr) : Dict × Bool :=
  if isMutableLit e then
    (dinsert d e.lineno "S012 Default argument value is mutable", true)
  else (d, false)

/-- The `for defval in node.defaults: if defval_multability_check(defval):
break` loop of `ast_checks`. -/
def scanDefaults (d : Dict) : List PyExpr → Dict
  | [] => d
  | e :: rest =>
    let r := defval_multability_check d e
    if r.2 then r.1 else scanDefaults r.1 rest

/-- The `isinstance` dispatch of `ast_checks` for one walked node. -/
def astCheckNode (d : Dict) (n : PyNode) : Dict :=
  match n with
  | .functionDefNode lineno name _ => function_case_check d lineno name
  | .argumentsNode args defaults _ => scanDefaults (args.foldl argument_case_check d) defaults
  | .assignNode lineno targets _ => variable_case_check d lineno targets
  | .moduleNode _ => d
  | .otherNode _ => d

/-- `ast_checks(tree)`: walk the tree breadth-first, updating
`ast_errors_dict` at every `FunctionDef`, `arguments` and `Assign` node. -/
def ast_checks (tree : PyNode) : Dict :=
  (bfsWalk [tree]).foldl astCheckNode []

/-- `errors_in_file`: a Python dict from line number to the list of messages
accumulated for that line, in insertion order. -/
abbrev MDict := List (Nat × List String)

/-- The `try/except KeyError/finally` idiom of `check_file`: append `v` to
the list at key `k`, creating the entry (at the end, like Python dict
insertion) when the key is new. -/
def minsert (d : MDict) (k : Nat) (v : String) : MDict :=
  match d with
  | [] => [(k, [v])]
  | (k', vs) :: rest =>
    if k' = k then (k', vs ++ [v]) :: rest else (k', vs) :: minsert rest k v

/-- Merging one pass's dict into `errors_in_file`, iterating the pass's
entries in insertion order. -/
def mergeDict (m : MDict) (d : Dict) : MDict :=
  d.foldl (fun m p => minsert m p.1 p.2) m

/-- The fixed list of line-oriented checks of `check_file`, in source
order. -/
def lineCheckList : List (Nat → String → Option (Nat × String)) :=
  [line_length_check, indentation_check, semicolon_check, comment_space_check,
   todo_check, construction_space_check, class_case_check]

/-- The inner loop of `check_file`: run every line check on one line,
recording each produced diagnostic (a `None` return is the `TypeError`
branch and records nothing). -/
def runLineChecks (m : MDict) (n : Nat) (line : String) : MDict :=
  lineCheckList.foldl
    (fun m chk =>
      match chk n line with
      | some p => minsert m p.1 p.2
      | none => m)
    m

/-- The first loop of `check_file`: all line checks over all lines, with
1-based line numbers from `enumerate`. -/
def fileLineErrors (lines : List String) : MDict :=
  lines.enum.foldl (fun m p => runLineChecks m (p.1 + 1) p.2) []

/-- `check_file`: line checks, then the blank-line pass, then
`ast_checks(ast.parse(...))`.  The parse outcome is an explicit `Except`
argument; a parse failure propagates out of `check_file` exactly as the
uncaught `SyntaxError` does in the source, so no dict is returned. -/
def check_file (lines : List String) (parsed : Except String PyNode) :
    Except String MDict :=
  let errs := mergeDict (fileLineErrors lines) (blank_line_check lines)
  match parsed with
  | .error e => .error e
  | .ok tree => .ok (mergeDict errs (ast_checks tree))

/-- Lexicographic order on character lists by code point, Python's `<` on
strings. -/
def lexLe : List Char → List Char → Bool
  | [], _ => true
  | _ :: _, [] => false
  | a :: as, b :: bs =>
    if a.toNat < b.toNat then true
    else if b.toNat < a.toNat then false
    else lexLe as bs

/-- Python `s <= t` on strings. -/
def strLe (a b : String) : Bool := lexLe a.data b.data

/-- Insertion into a sorted list, the building block of the model of
Python's `sorted`. -/
def insertSorted (le : α → α → Bool) (x : α) : List α → List α
  | [] => [x]
  | y :: ys => if le x y then x :: y :: ys else y :: insertSorted le x ys

/-- Sorting model of Python's `sorted(...)`: a sorted permutation of the
input. -/
def isort (le : α → α → Bool) (l : List α) : List α :=
  l.foldr (insertSorted le) []

/-- Ordering used by `OrderedDict(sorted(errors_dict.items()))`: item tuples
compare by their line-number key first, and keys of a dict are unique, so
only the key matters. -/
def keyLe (a b : Nat × List String) : Bool := a.1 ≤ b.1

/-- The per-file part of `print_results`: lines in ascending order, messages
of one line in ascending string order, each emitted as the triple
(path, line, message) that the `print` call formats. -/
def print_results_file (path : String) (errors : MDict) : List (String × Nat × String) :=
  ((isort keyLe errors).map
    (fun p => (isort strLe p.2).map (fun m => (path, p.1, m)))).flatten

/-- `print_results`: every analyzed file's block, in the order the files were
analyzed. -/
def print_results (all_errors : List (String × MDict)) : List (String × Nat × String) :=
  (all_errors.map (fun pe => print_results_file pe.1 pe.2)).flatten

/-- A file text given as its decomposition into maximal blank runs: each pair
is (one maximal run of blank lines, the non-blank line that ends it), and
`trailing` is the file's final run of blank lines with no non-blank line
after it.  Every file decomposes uniquely this way. -/
def runsFlatten (runs : List (List String × String)) (trailing : List String) : List String :=
  (runs.map (fun r => r.1 ++ [r.2])).flatten ++ trailing

/-- Modelled from the claim's wording for the blank-line pass: one S006 per
maximal blank run whose length exceeds 2, attached to the 1-based number of
the non-blank line immediately following the run; `base` counts the lines
that precede the remaining runs. -/
def runFlagsSpec (base : Nat) : List (List String × String) → List (Nat × String)
  | [] => []
  | (bs, _) :: rest =>
    (if 2 < bs.length then [(base + bs.length + 1, s006msg)] else []) ++
      runFlagsSpec (base + bs.length + 1) rest

/-- Modelled from the claim's wording for C6: a line that consists entirely
of a comment (optional leading whitespace, then `#`, then arbitrary text). -/
def claimFullCommentLine (line : String) : Bool :=
  match line.data.dropWhile isPyWhitespace with
  | '#' :: _ => true
  | _ => false

/-- Modelled from the claim's wording for C7: a `def` or `class` keyword at
the (possibly indented) start of the line is followed by more than one space
before the identifier. -/
def claimS007 (line : String) : Bool :=
  let t := line.data.dropWhile (fun c => c = ' ')
  (match dropKw "def".data t with
   | some (' ' :: ' ' :: rest) => ((rest.dropWhile (fun c => c = ' ')).headD '!').isAlphanum ||
       (rest.dropWhile (fun c => c = ' ')).headD '!' = '_'
   | _ => false) ||
  (match dropKw "class".data t with
   | some (' ' :: ' ' :: rest) => ((rest.dropWhile (fun c => c = ' ')).headD '!').isAlphanum ||
       (rest.dropWhile (fun c => c = ' ')).headD '!' = '_'
   | _ => false)

/-- The parse tree of `def myFunc(X=[]):` followed by an indented `pass`:
`Module` whose only statement is the `FunctionDef` at line 1, whose children
are its `arguments` node (argument `X` at line 1, one list-literal default at
line 1) and the `Pass` statement. -/
def c1Tree : PyNode :=
  .moduleNode (.cons
    (.functionDefNode 1 "myFunc" (.cons
      (.argumentsNode [⟨"X", 1⟩] [.listLit 1] .nil)
      (.cons (.otherNode .nil) .nil)))
    .nil)

/-- The same function with a second mutable default appended:
`def myFunc(X=[], Y={}):`. -/
def c1TreeTwin : PyNode :=
  .moduleNode (.cons
    (.functionDefNode 1 "myFunc" (.cons
      (.argumentsNode [⟨"X", 1⟩, ⟨"Y", 1⟩] [.listLit 1, .dictLit 1] .nil)
      (.cons (.otherNode .nil) .nil)))
    .nil)

/-- The parse tree of the single assignment `X = 1`: `Module` holding an
`Assign` at line 1 whose only target is the `Name` `X`. -/
def c2Tree : PyNode :=
  .moduleNode (.cons (.assignNode 1 [.nameT "X"] .nil) .nil)

/-- The emission order the aggregator promises: a later diagnostic is on a
strictly later line, or on the same line with a message that is not
lexicographically smaller. -/
def emitLe (a b : String × Nat × String) : Prop :=
  a.2.1 < b.2.1 ∨ (a.2.1 = b.2.1 ∧ strLe a.2.2 b.2.2 = true)

/-- A file text whose first line holds exactly 79 characters before its
newline: the raw line Python iteration yields has `len` 80. -/
def seventyNineText : String := String.mk (List.replicate 79 'a') ++ "\n" ++ "b = 1"

theorem dinsert_keys (d : Dict) (k : Nat) (v : String) :
    (dinsert d k v).map Prod.fst =
      if k ∈ d.map Prod.fst then d.map Prod.fst else d.map Prod.fst ++ [k] := by
  induction d with
  | nil => simp [dinsert]
  | cons p rest ih =>
    obtain ⟨k', v'⟩ := p
    by_cases hk : k' = k
    · subst hk; simp [dinsert]
    · by_cases hm : k ∈ rest.map Prod.fst
      · simp [dinsert, hk, ih, hm, Ne.symm hk]
      · simp [dinsert, hk, ih, hm, Ne.symm hk]

theorem dinsert_nodupKeys {d : Dict} {k : Nat} {v : String}
    (h : (d.map Prod.fst).Nodup) : ((dinsert d k v).map Prod.fst).Nodup := by
  rw [dinsert_keys]
  split
  · exact h
  · next hm => simp [List.nodup_append, h, hm]

theorem dlookup_dinsert_self (d : Dict) (k : Nat) (v : String) :
    dlookup (dinsert d k v) k = some v := by
  induction d with
  | nil => simp [dinsert, dlookup]
  | cons p rest ih =>
    obtain ⟨k', v'⟩ := p
    by_cases hk : k' = k
    · simp [dinsert, hk, dlookup]
    · simp [dinsert, hk, dlookup, ih]

theorem function_case_nodupKeys {d : Dict} {ln : Nat} {nm : String}
    (h : (d.map Prod.fst).Nodup) :
    (((function_case_check d ln nm).map Prod.fst).Nodup) := by
  unfold function_case_check
  split
  · exact h
  · exact dinsert_nodupKeys h

theorem argument_case_nodupKeys {d : Dict} {a : PyArg}
    (h : (d.map Prod.fst).Nodup) :
    (((argument_case_check d a).map Prod.fst).Nodup) := by
  unfold argument_case_check
  split
  · exact h
  · exact dinsert_nodupKeys h

theorem variable_case_nodupKeys {d : Dict} {ln : Nat} {ts : List PyTarget}
    (h : (d.map Prod.fst).Nodup) :
    (((variable_case_check d ln ts).map Prod.fst).Nodup) := by
  unfold variable_case_check
  split
  · split
    · exact h
    · exact dinsert_nodupKeys h
  · exact h

theorem argfold_nodupKeys (args : List PyArg) :
    ∀ d : Dict, (d.map Prod.fst).Nodup →
      (((args.foldl argument_case_check d).map Prod.fst).Nodup) := by
  induction args with
  | nil => intro d h; simpa using h
  | cons a rest ih =>
    intro d h
    simpa using ih _ (argument_case_nodupKeys h)

theorem scanDefaults_nodupKeys (defaults : List PyExpr) :
    ∀ d : Dict, (d.map Prod.fst).Nodup →
      (((scanDefaults d defaults).map Prod.fst).Nodup) := by
  induction defaults with
  | nil => intro d h; simpa [scanDefaults] using h
  | cons e rest ih =>
    intro d h
    unfold scanDefaults defval_multability_check
    split
    · simpa using dinsert_nodupKeys h
    · simpa using ih _ h

theorem astCheckNode_nodupKeys {d : Dict} (n : PyNode)
    (h : (d.map Prod.fst).Nodup) : (((astCheckNode d n).map Prod.fst).Nodup) := by
  cases n with
  | functionDefNode ln nm cs => exact function_case_nodupKeys h
  | argumentsNode args defaults cs =>
    exact scanDefaults_nodupKeys defaults _ (argfold_nodupKeys args _ h)
  | assignNode ln ts cs => exact variable_case_nodupKeys h
  | moduleNode cs => exact h
  | otherNode cs => exact h

theorem astfold_nodupKeys (ns : List PyNode) :
    ∀ d : Dict, (d.map Prod.fst).Nodup →
      (((ns.foldl astCheckNode d).map Prod.fst).Nodup) := by
  induction ns with
  | nil => intro d h; simpa using h
  | cons n rest ih =>
    intro d h
    simpa using ih _ (astCheckNode_nodupKeys n h)

/-- C10: the syntax-tree pass retains at most one diagnostic per line number:
for every tree the keys of `ast_checks`' result are pairwise distinct (the
dict maps each line to a single message), and a dict write to an existing
key replaces the stored message, so of two tree checks that hit the same
line only the later one's message reaches the aggregator. -/
theorem c10_single_slot_thm :
    ∀ t : PyNode, (((ast_checks t).map Prod.fst).Nodup) ∧
      ∀ (d : Dict) (k : Nat) (v : String), dlookup (dinsert d k v) k = some v := by
  intro t
  constructor
  · exact astfold_nodupKeys _ [] (by simp)
  · exact dlookup_dinsert_self

/-- C8: for every function's argument list, the default-value expressions
are scanned left to right and at most one mutable-default diagnostic is
written per function: the first default that is a list, set or dict literal
(`List.find?`) gets S012 at its own line and the remaining defaults are not
checked. -/
theorem c8_first_mutable_thm :
    ∀ (d : Dict) (defaults : List PyExpr),
      scanDefaults d defaults =
        match defaults.find? isMutableLit with
        | none => d
        | some e => dinsert d e.lineno "S012 Default argument value is mutable" := by
  intro d defaults
  induction defaults generalizing d with
  | nil => simp [scanDefaults]
  | cons e rest ih =>
    by_cases hm : isMutableLit e = true
    · simp [scanDefaults, defval_multability_check, hm, List.find?_cons_of_pos _ hm]
    · simp only [Bool.not_eq_true] at hm
      simp [scanDefaults, defval_multability_check, hm, List.find?_cons_of_neg, ih]

/-- C5: when syntax-tree construction fails, `check_file` propagates the
parse error instead of returning a diagnostics mapping, so a malformed file
yields no syntax-tree diagnostics and no empty result masquerading as a
clean report. -/
theorem c5_parse_error_thm :
    ∀ (lines : List String) (e : String),
      check_file lines (Except.error e) = Except.error e := by
  intro lines e
  rfl

/-- C1 fails on the code: for `def myFunc(X=[]):` the syntax-tree pass emits
one diagnostic, not three — `ast_errors_dict` has a single slot per line, so
the S009 and S010 messages written first are overwritten, and the
mutable-default message carries code S012, not S011. -/
theorem c1_counterexample :
    (ast_checks c1Tree).length = 1 ∧
      ast_checks c1Tree = [(1, "S012 Default argument value is mutable")] := by
  constructor <;>
    simp [ast_checks, c1Tree, bfsWalk, PyNode.childList, PyForest.toList, astCheckNode,
      function_case_check, argument_case_check, scanDefaults, defval_multability_check,
      isMutableLit, matchesSnakeCase, isSnakeChar, dinsert, PyExpr.lineno]

/-- C1 amended: for `def myFunc(X=[]):` the syntax-tree pass returns exactly
one diagnostic for line 1, the S012 mutable-default message (the S009 and
S010 writes to the same line slot are overwritten by it), and a second
mutable default still produces no second mutable-default diagnostic. -/
theorem c1_amended_thm :
    ast_checks c1Tree = [(1, "S012 Default argument value is mutable")] ∧
      ast_checks c1TreeTwin = [(1, "S012 Default argument value is mutable")] := by
  constructor <;>
    simp [ast_checks, c1Tree, c1TreeTwin, bfsWalk, PyNode.childList, PyForest.toList,
      astCheckNode, function_case_check, argument_case_check, scanDefaults,
      defval_multability_check, isMutableLit, matchesSnakeCase, isSnakeChar, dinsert,
      PyExpr.lineno]

/-- C2 fails on the code: the snake_case diagnostic for an assignment target
carries code S011, not S012 — for `X = 1` the tree pass emits exactly the
S011 variable-name message and nothing starting with S012. -/
theorem c2_counterexample :
    ast_checks c2Tree = [(1, "S011 Variable name X should use snake_case")] ∧
      ("S011 Variable name X should use snake_case").data.take 4 ≠ "S012".data := by
  constructor
  · simp [ast_checks, c2Tree, bfsWalk, PyNode.childList, PyForest.toList, astCheckNode,
      variable_case_check, matchesSnakeCase, isSnakeChar, dinsert]
  · decide

/-- C2 amended: for every assignment whose leftmost target is a simple named
variable whose name is not snake_case, the tree pass writes the S011
diagnostic, containing that name, into the slot of the assignment's line;
for every assignment whose leftmost target is not a simple named variable
the pass leaves the dict unchanged and raises no error. -/
theorem c2_variable_case_thm :
    (∀ (d : Dict) (ln : Nat) (ts : List PyTarget) (id : String),
      ts.head? = some (PyTarget.nameT id) → matchesSnakeCase id = false →
        variable_case_check d ln ts =
          dinsert d ln ("S011 Variable name " ++ id ++ " should use snake_case")) ∧
    (∀ (d : Dict) (ln : Nat) (ts : List PyTarget),
      (∀ id : String, ts.head? ≠ some (PyTarget.nameT id)) →
        variable_case_check d ln ts = d) := by
  constructor
  · intro d ln ts id hh hs
    unfold variable_case_check
    rw [hh]
    simp [hs]
  · intro d ln ts hh
    unfold variable_case_check
    split
    · next id heq => exact absurd heq (hh id)
    · rfl

/-- Witness for C2: the amended theorem applied to `X = 1` (a simple `Name`
target failing snake_case) and to an attribute-target assignment (skipped
without error). -/
theorem c2_witness :
    variable_case_check [] 1 [PyTarget.nameT "X"] =
        dinsert [] 1 ("S011 Variable name " ++ "X" ++ " should use snake_case") ∧
      variable_case_check [] 1 [PyTarget.attributeT] = [] := by
  constructor
  · exact c2_variable_case_thm.1 [] 1 [PyTarget.nameT "X"] "X" rfl (by decide)
  · exact c2_variable_case_thm.2 [] 1 [PyTarget.attributeT] (fun id h => by simp at h)

theorem blankAux_blankBlock (bs : List String) :
    ∀ (nb i : Nat) (l : List String), nb ≤ 3 → (∀ b ∈ bs, isBlankLine b = true) →
      blankAux nb i (bs ++ l) = blankAux (min 3 (nb + bs.length)) (i + bs.length) l := by
  induction bs with
  | nil =>
    intro nb i l hnb _
    simp [Nat.min_eq_right hnb]
  | cons b bs ih =>
    intro nb i l hnb hb
    have hbb : isBlankLine b = true := hb b (by simp)
    by_cases h2 : nb ≤ 2
    · have step : blankAux nb i ((b :: bs) ++ l) = blankAux (nb + 1) (i + 1) (bs ++ l) := by
        simp [blankAux, h2, hbb]
      rw [step, ih (nb + 1) (i + 1) l (by omega) (fun x hx => hb x (by simp [hx]))]
      have e1 : min 3 (nb + 1 + bs.length) = min 3 (nb + (b :: bs).length) := by
        simp; omega
      have e2 : i + 1 + bs.length = i + (b :: bs).length := by simp; omega
      rw [e1, e2]
    · have step : blankAux nb i ((b :: bs) ++ l) = blankAux nb (i + 1) (bs ++ l) := by
        simp [blankAux, h2, hbb]
      rw [step, ih nb (i + 1) l hnb (fun x hx => hb x (by simp [hx]))]
      have e1 : min 3 (nb + bs.length) = min 3 (nb + (b :: bs).length) := by
        simp; omega
      have e2 : i + 1 + bs.length = i + (b :: bs).length := by simp; omega
      rw [e1, e2]

theorem blankAux_nonblank (nb i : Nat) (c : String) (l : List String)
    (hc : isBlankLine c = false) :
    blankAux nb i (c :: l) =
      (if 2 < nb then [(i + 1, s006msg)] else []) ++ blankAux 0 (i + 1) l := by
  by_cases h2 : nb ≤ 2
  · have h3 : ¬ 2 < nb := by omega
    simp [blankAux, h2, hc, h3]
  · have h3 : 2 < nb := by omega
    simp [blankAux, h2, hc, h3]

theorem blankAux_allBlank (bs : List String) (nb i : Nat) (hnb : nb ≤ 3)
    (hb : ∀ b ∈ bs, isBlankLine b = true) : blankAux nb i bs = [] := by
  have h := blankAux_blankBlock bs nb i [] hnb hb
  simpa [blankAux] using h

/-- C4: starting from counter 0, the blank-line pass emits S006 exactly once
per maximal run of whitespace-only lines whose length exceeds 2, attached to
the non-blank line immediately following that run; runs of length at most 2
produce nothing, and a trailing run with no following non-blank line
produces nothing. -/
theorem c4_blank_runs_thm :
    ∀ (runs : List (List String × String)) (trailing : List String),
      (∀ r ∈ runs, (∀ b ∈ r.1, isBlankLine b = true) ∧ isBlankLine r.2 = false) →
      (∀ b ∈ trailing, isBlankLine b = true) →
      blank_line_check (runsFlatten runs trailing) = runFlagsSpec 0 runs := by
  have main : ∀ (runs : List (List String × String)) (trailing : List String) (i : Nat),
      (∀ r ∈ runs, (∀ b ∈ r.1, isBlankLine b = true) ∧ isBlankLine r.2 = false) →
      (∀ b ∈ trailing, isBlankLine b = true) →
      blankAux 0 i ((runs.map (fun r => r.1 ++ [r.2])).flatten ++ trailing) =
        runFlagsSpec i runs := by
    intro runs
    induction runs with
    | nil =>
      intro trailing i _ ht
      simpa [runFlagsSpec] using blankAux_allBlank trailing 0 i (by omega) ht
    | cons r rest ih =>
      intro trailing i hr ht
      obtain ⟨bs, c⟩ := r
      have hbs : ∀ b ∈ bs, isBlankLine b = true := (hr (bs, c) (by simp)).1
      have hc : isBlankLine c = false := (hr (bs, c) (by simp)).2
      have assoc : ((((bs, c) :: rest).map (fun r => r.1 ++ [r.2])).flatten ++ trailing) =
          bs ++ (c :: ((rest.map (fun r => r.1 ++ [r.2])).flatten ++ trailing)) := by
        simp
      rw [assoc, blankAux_blankBlock bs 0 i _ (by omega) hbs,
        blankAux_nonblank _ _ _ _ hc,
        ih trailing (i + bs.length + 1) (fun x hx => hr x (by simp [hx])) ht]
      by_cases hlen : 2 < bs.length
      · have hm : 2 < min 3 (0 + bs.length) := by omega
        simp [runFlagsSpec, hlen, hm]
      · have hm : ¬ 2 < min 3 (0 + bs.length) := by omega
        simp [runFlagsSpec, hlen, hm]
  intro runs trailing hr ht
  exact main runs trailing 0 hr ht

/-- Witness for C4: a file made of the runs (1 blank, `x`), (3 blanks, `y`)
and one trailing blank line gets exactly one S006, at line 6. -/
theorem c4_witness :
    (∀ r ∈ ([(["" ], "x"), (["", " ", ""], "y")] : List (List String × String)),
        (∀ b ∈ r.1, isBlankLine b = true) ∧ isBlankLine r.2 = false) ∧
      (∀ b ∈ ([""] : List String), isBlankLine b = true) ∧
      blank_line_check (runsFlatten [([""], "x"), (["", " ", ""], "y")] [""]) =
        runFlagsSpec 0 [([""], "x"), (["", " ", ""], "y")] := by
  refine ⟨by decide, by decide, ?_⟩
  exact c4_blank_runs_thm [([""], "x"), (["", " ", ""], "y")] [""] (by decide) (by decide)

theorem spacesThenHash_no_hash {cs : List Char} (h : '#' ∉ cs) :
    spacesThenHash cs = none := by
  unfold spacesThenHash
  split
  · next heq =>
    exfalso
    apply h
    have hm : '#' ∈ cs.dropWhile (fun c => c = ' ') := by rw [heq]; simp
    exact (List.dropWhile_sublist _).mem hm
  · rfl

theorem firstInlineHash_no_hash : ∀ {cs : List Char}, '#' ∉ cs →
    firstInlineHashSpaces cs = none := by
  intro cs
  induction cs with
  | nil => intro _; rfl
  | cons c rest ih =>
    intro h
    have hr : '#' ∉ rest := fun hm => h (by simp [hm])
    by_cases hws : isPyWhitespace c = true
    · simp [firstInlineHashSpaces, hws, ih hr]
    · simp only [Bool.not_eq_true] at hws
      simp [firstInlineHashSpaces, hws, spacesThenHash_no_hash hr, ih hr]

theorem firstInlineHash_wsSkip : ∀ (ws l : List Char),
    (∀ c ∈ ws, isPyWhitespace c = true) →
    firstInlineHashSpaces (ws ++ l) = firstInlineHashSpaces l := by
  intro ws
  induction ws with
  | nil => intro l _; rfl
  | cons c rest ih =>
    intro l h
    have hc : isPyWhitespace c = true := h c (by simp)
    simp [firstInlineHashSpaces, hc, ih l (fun x hx => h x (by simp [hx]))]

theorem firstInlineHash_sound : ∀ {cs : List Char} {k : Nat},
    firstInlineHashSpaces cs = some k →
    ∃ pre c mid post, cs = pre ++ c :: (mid ++ '#' :: post) ∧
      isPyWhitespace c = false ∧ mid.all (fun x => x = ' ') = true ∧ mid.length = k := by
  intro cs
  induction cs with
  | nil => intro k h; simp [firstInlineHashSpaces] at h
  | cons c rest ih =>
    intro k h
    by_cases hws : isPyWhitespace c = true
    · simp only [firstInlineHashSpaces, hws, if_true] at h
      obtain ⟨pre, c', mid, post, hcs, hc', hmid, hlen⟩ := ih h
      exact ⟨c :: pre, c', mid, post, by simp [hcs], hc', hmid, hlen⟩
    · simp only [Bool.not_eq_true] at hws
      simp only [firstInlineHashSpaces, hws, Bool.false_eq_true, if_false] at h
      cases hsp : spacesThenHash rest with
      | some k' =>
        rw [hsp] at h
        have hk : k' = k := by simpa using h
        unfold spacesThenHash at hsp
        cases hdw : rest.dropWhile (fun c => c = ' ') with
        | nil => rw [hdw] at hsp; simp at hsp
        | cons h0 tl =>
          rw [hdw] at hsp
          by_cases hh : h0 = '#'
          · subst hh
            simp only [Option.some.injEq] at hsp
            have hres : rest = rest.takeWhile (fun c => c = ' ') ++ '#' :: tl := by
              conv_lhs => rw [(List.takeWhile_append_dropWhile (fun c => c = ' ') rest).symm]
              rw [hdw]
            refine ⟨[], c, rest.takeWhile (fun c => c = ' '), tl, ?_, hws, ?_, ?_⟩
            · rw [List.nil_append, ← hres]
            · rw [List.all_eq_true]
              intro x hx
              simpa using @List.mem_takeWhile_imp Char (fun c => decide (c = ' ')) rest x hx
            · omega
          · exfalso
            split at hsp
            · next heq =>
              injection heq with e1 _
              exact hh e1
            · exact Option.noConfusion hsp
      | none =>
        rw [hsp] at h
        obtain ⟨pre, c', mid, post, hcs, hc', hmid, hlen⟩ := ih h
        exact ⟨c :: pre, c', mid, post, by simp [hcs], hc', hmid, hlen⟩

/-- C6 amended: S004 is produced only when the line holds a non-whitespace
character followed by fewer than two spaces and then `#` (the leftmost
`\S *#` match has fewer than two spaces), and a line that is entirely a
comment whose text contains no further `#` never produces S004.  (The
unqualified full-comment exemption of the claim is false: the `\S` of the
pattern can match the leading `#` itself, see the counterexample.) -/
theorem c6_comment_space_thm :
    (∀ (n : Nat) (line : String) (res : Nat × String),
      comment_space_check n line = some res →
        res = (n, s004msg) ∧
        ∃ pre c mid post, line.data = pre ++ c :: (mid ++ '#' :: post) ∧
          isPyWhitespace c = false ∧ mid.all (fun x => x = ' ') = true ∧ mid.length < 2) ∧
    (∀ (n : Nat) (ws rest : List Char),
      (∀ c ∈ ws, isPyWhitespace c = true) → '#' ∉ rest →
        comment_space_check n (String.mk (ws ++ '#' :: rest)) = none) := by
  constructor
  · intro n line res h
    unfold comment_space_check at h
    cases hf : firstInlineHashSpaces line.data with
    | none => rw [hf] at h; exact absurd h (by simp)
    | some k =>
      rw [hf] at h
      dsimp only at h
      by_cases hk : k < 2
      · rw [if_pos hk] at h
        have hres : res = (n, s004msg) := by simpa using h.symm
        obtain ⟨pre, c, mid, post, hcs, hc, hmid, hlen⟩ := firstInlineHash_sound hf
        exact ⟨hres, pre, c, mid, post, hcs, hc, hmid, by omega⟩
      · rw [if_neg hk] at h
        exact absurd h (by simp)
  · intro n ws rest hws hr
    unfold comment_space_check
    have hdata : (String.mk (ws ++ '#' :: rest)).data = ws ++ '#' :: rest := rfl
    rw [hdata, firstInlineHash_wsSkip ws _ hws]
    have hstep : firstInlineHashSpaces ('#' :: rest) = none := by
      have h1 : isPyWhitespace '#' = false := by decide
      simp [firstInlineHashSpaces, h1, spacesThenHash_no_hash hr,
        firstInlineHash_no_hash hr]
    rw [hstep]

/-- Witness for C6: `x #` (one space before an inline comment) produces S004
and admits the decomposition; the pure comment line `" # y"` (no second `#`)
produces nothing. -/
theorem c6_witness :
    (∃ pre c mid post, ("x #").data = pre ++ c :: (mid ++ '#' :: post) ∧
        isPyWhitespace c = false ∧ mid.all (fun x => x = ' ') = true ∧ mid.length < 2) ∧
      comment_space_check 1 (String.mk ([' '] ++ '#' :: [' ', 'y'])) = none := by
  constructor
  · exact (c6_comment_space_thm.1 1 "x #" (1, s004msg) (by decide)).2
  · exact c6_comment_space_thm.2 1 [' '] [' ', 'y'] (by decide) (by decide)

/-- C6 fails on the code as stated: `##` consists entirely of a comment
(leading `#` after no whitespace), yet S004 is produced for it, because the
`\S` of the pattern `\S *#` matches the first `#` itself. -/
theorem c6_counterexample :
    comment_space_check 1 "##" = some (1, s004msg) ∧
      claimFullCommentLine "##" = true := by
  constructor <;> decide

theorem dropWhile_spaces_replicate (k : Nat) (l : List Char) :
    (List.replicate k ' ' ++ l).dropWhile (fun c => c = ' ') =
      l.dropWhile (fun c => c = ' ') := by
  induction k with
  | zero => simp
  | succ k ih => simp [List.replicate_succ, ih]

theorem dropKw_append_self : ∀ (ks cs : List Char), dropKw ks (ks ++ cs) = some cs := by
  intro ks
  induction ks with
  | nil => intro cs; rfl
  | cons a ks ih => intro cs; simp [dropKw, ih]

theorem construction_reduced (n : Nat) (line : String) (rest : List Char)
    (hks : kwStart (indentRest line) = true)
    (hg : kwSpaceWord (indentRest line) = oneSpaceWordGuard rest) :
    (construction_space_check n line = none ↔
      ∃ c rs, rest = ' ' :: c :: rs ∧ isWordChar c = true) := by
  unfold construction_space_check
  simp only [hks, if_true, hg]
  rcases rest with _ | ⟨a, _ | ⟨b, rs⟩⟩
  · simp [oneSpaceWordGuard]
  · simp [oneSpaceWordGuard]
  · by_cases ha : a = ' '
    · subst ha
      by_cases hw : isWordChar b = true
      · simp [oneSpaceWordGuard, hw]
      · simp [oneSpaceWordGuard, hw]
    · simp [oneSpaceWordGuard, ha]

/-- C7 amended: for a line whose leading spaces are followed by the letters
`def` or `class` — even as a prefix of a longer word such as `defx` — S007 is
withheld exactly when the letters are followed by one space and then a word
character; every other line (no such letter sequence after the indent)
produces no S007.  (The claim's iff in terms of a `def`/`class` keyword fails
on lines like `defx = 1`, see the counterexample.) -/
theorem c7_construction_thm :
    (∀ (n k : Nat) (kw rest : List Char), kw = "def".data ∨ kw = "class".data →
      (construction_space_check n (String.mk (List.replicate k ' ' ++ kw ++ rest)) = none ↔
        ∃ c rs, rest = ' ' :: c :: rs ∧ isWordChar c = true)) ∧
    (∀ (n : Nat) (line : String), kwStart (indentRest line) = false →
      construction_space_check n line = none) := by
  constructor
  · intro n k kw rest hkw
    rcases hkw with h | h <;> subst h
    · have ht : indentRest (String.mk (List.replicate k ' ' ++ "def".data ++ rest)) =
          "def".data ++ rest := by
        unfold indentRest
        have hd : (String.mk (List.replicate k ' ' ++ "def".data ++ rest)).data =
            List.replicate k ' ' ++ ("def".data ++ rest) := by simp
        rw [hd, dropWhile_spaces_replicate]
        simp [List.dropWhile_cons]
      have hks : kwStart ("def".data ++ rest) = true := by
        simp [kwStart, dropKw]
      have hg : kwSpaceWord ("def".data ++ rest) = oneSpaceWordGuard rest := by
        rcases rest with _ | ⟨a, _ | ⟨b, rs⟩⟩ <;>
          simp [kwSpaceWord, oneSpaceWordGuard, dropKw]
      exact construction_reduced n _ rest (ht ▸ hks) (ht ▸ hg)
    · have ht : indentRest (String.mk (List.replicate k ' ' ++ "class".data ++ rest)) =
          "class".data ++ rest := by
        unfold indentRest
        have hd : (String.mk (List.replicate k ' ' ++ "class".data ++ rest)).data =
            List.replicate k ' ' ++ ("class".data ++ rest) := by simp
        rw [hd, dropWhile_spaces_replicate]
        simp [List.dropWhile_cons]
      have hks : kwStart ("class".data ++ rest) = true := by
        simp [kwStart, dropKw]
      have hg : kwSpaceWord ("class".data ++ rest) = oneSpaceWordGuard rest := by
        rcases rest with _ | ⟨a, _ | ⟨b, rs⟩⟩ <;>
          simp [kwSpaceWord, oneSpaceWordGuard, dropKw]
      exact construction_reduced n _ rest (ht ▸ hks) (ht ▸ hg)
  · intro n line h
    unfold construction_space_check
    simp [h]

/-- Witness for C7: ` def f` (keyword, one space, identifier) produces no
S007, and `x = 1` (no keyword letters at the start) produces no S007. -/
theorem c7_witness :
    construction_space_check 1
        (String.mk (List.replicate 1 ' ' ++ "def".data ++ [' ', 'f'])) = none ∧
      construction_space_check 1 "x = 1" = none := by
  constructor
  · exact (c7_construction_thm.1 1 1 "def".data [' ', 'f'] (Or.inl rfl)).mpr
      ⟨'f', [], rfl, by decide⟩
  · exact c7_construction_thm.2 1 "x = 1" (by decide)

/-- C7 fails on the code as stated: `defx = 1` holds no `def` keyword
followed by spaces, yet S007 is produced for it, because the pattern
`^ *(def|class)` also matches `def` as a prefix of the identifier `defx`. -/
theorem c7_counterexample :
    construction_space_check 1 "defx = 1" = some (1, "S007 Too many spaces after defx") ∧
      claimS007 "defx = 1" = false := by
  constructor <;> decide

theorem insertSorted_perm (le : α → α → Bool) (x : α) :
    ∀ l : List α, List.Perm (insertSorted le x l) (x :: l)
  | [] => List.Perm.refl _
  | y :: ys => by
    unfold insertSorted
    split
    · exact List.Perm.refl _
    · exact (List.Perm.cons y (insertSorted_perm le x ys)).trans (List.Perm.swap x y ys)

theorem isort_perm (le : α → α → Bool) : ∀ l : List α, List.Perm (isort le l) l
  | [] => List.Perm.refl _
  | a :: l => by
    have step : isort le (a :: l) = insertSorted le a (isort le l) := rfl
    rw [step]
    exact (insertSorted_perm le a (isort le l)).trans (List.Perm.cons a (isort_perm le l))

theorem mem_insertSorted {le : α → α → Bool} {x z : α} {l : List α}
    (h : z ∈ insertSorted le x l) : z = x ∨ z ∈ l := by
  have hp := (insertSorted_perm le x l).mem_iff.mp h
  simpa using hp

theorem pairwise_insertSorted (le : α → α → Bool)
    (htot : ∀ a b, le a b = true ∨ le b a = true)
    (htr : ∀ a b c, le a b = true → le b c = true → le a c = true) (x : α) :
    ∀ l : List α, l.Pairwise (fun a b => le a b = true) →
      (insertSorted le x l).Pairwise (fun a b => le a b = true) := by
  intro l
  induction l with
  | nil => intro _; simp [insertSorted]
  | cons y ys ih =>
    intro h
    rw [List.pairwise_cons] at h
    obtain ⟨hy, hys⟩ := h
    unfold insertSorted
    split
    · next hxy =>
      rw [List.pairwise_cons]
      refine ⟨?_, List.pairwise_cons.mpr ⟨hy, hys⟩⟩
      intro z hz
      rcases List.mem_cons.mp hz with rfl | hz'
      · exact hxy
      · exact htr x y z hxy (hy z hz')
    · next hxy =>
      rw [List.pairwise_cons]
      refine ⟨?_, ih hys⟩
      intro z hz
      rcases mem_insertSorted hz with rfl | hz'
      · rcases htot z y with h' | h'
        · exact absurd h' hxy
        · exact h'
      · exact hy z hz'

theorem isort_pairwise (le : α → α → Bool)
    (htot : ∀ a b, le a b = true ∨ le b a = true)
    (htr : ∀ a b c, le a b = true → le b c = true → le a c = true) :
    ∀ l : List α, (isort le l).Pairwise (fun a b => le a b = true) := by
  intro l
  induction l with
  | nil => simp [isort]
  | cons a l ih => exact pairwise_insertSorted le htot htr a (isort le l) ih

theorem lexLe_total : ∀ a b : List Char, lexLe a b = true ∨ lexLe b a = true := by
  intro a
  induction a with
  | nil => intro b; left; rfl
  | cons x xs ih =>
    intro b
    cases b with
    | nil => right; rfl
    | cons y ys =>
      by_cases h1 : x.toNat < y.toNat
      · left; simp [lexLe, h1]
      · by_cases h2 : y.toNat < x.toNat
        · right; simp [lexLe, h2]
        · rcases ih ys with h | h
          · left; simp [lexLe, h1, h2, h]
          · right; simp [lexLe, h1, h2, h]

theorem lexLe_trans : ∀ a b c : List Char,
    lexLe a b = true → lexLe b c = true → lexLe a c = true := by
  intro a
  induction a with
  | nil => intro b c _ _; rfl
  | cons x xs ih =>
    intro b c hab hbc
    cases b with
    | nil => simp [lexLe] at hab
    | cons y ys =>
      cases c with
      | nil => simp [lexLe] at hbc
      | cons z zs =>
        simp only [lexLe] at hab hbc ⊢
        by_cases h1 : x.toNat < y.toNat
        · by_cases h2 : y.toNat < z.toNat
          · simp [show x.toNat < z.toNat by omega]
          · by_cases h3 : z.toNat < y.toNat
            · simp [h2, h3] at hbc
            · simp [show x.toNat < z.toNat by omega]
        · by_cases h4 : y.toNat < x.toNat
          · simp [h1, h4] at hab
          · by_cases h2 : y.toNat < z.toNat
            · simp [show x.toNat < z.toNat by omega]
            · by_cases h3 : z.toNat < y.toNat
              · simp [h2, h3] at hbc
              · have hx : ¬ x.toNat < z.toNat := by omega
                have hz : ¬ z.toNat < x.toNat := by omega
                simp [h1, h4] at hab
                simp [h2, h3] at hbc
                simp [hx, hz]
                exact ih ys zs hab hbc

theorem strLe_total : ∀ a b : String, strLe a b = true ∨ strLe b a = true := by
  intro a b
  exact lexLe_total a.data b.data

theorem strLe_trans : ∀ a b c : String,
    strLe a b = true → strLe b c = true → strLe a c = true := by
  intro a b c hab hbc
  exact lexLe_trans a.data b.data c.data hab hbc

theorem keyLe_total : ∀ a b : Nat × List String, keyLe a b = true ∨ keyLe b a = true := by
  intro a b
  simp [keyLe]
  omega

theorem keyLe_trans : ∀ a b c : Nat × List String,
    keyLe a b = true → keyLe b c = true → keyLe a c = true := by
  intro a b c hab hbc
  simp [keyLe] at hab hbc ⊢
  omega

theorem minsert_keys (d : MDict) (k : Nat) (v : String) :
    (minsert d k v).map Prod.fst =
      if k ∈ d.map Prod.fst then d.map Prod.fst else d.map Prod.fst ++ [k] := by
  induction d with
  | nil => simp [minsert]
  | cons p rest ih =>
    obtain ⟨k', vs⟩ := p
    by_cases hk : k' = k
    · subst hk; simp [minsert]
    · by_cases hm : k ∈ rest.map Prod.fst
      · simp [minsert, hk, ih, hm, Ne.symm hk]
      · simp [minsert, hk, ih, hm, Ne.symm hk]

theorem minsert_nodupKeys {d : MDict} {k : Nat} {v : String}
    (h : (d.map Prod.fst).Nodup) : ((minsert d k v).map Prod.fst).Nodup := by
  rw [minsert_keys]
  split
  · exact h
  · next hm => simp [List.nodup_append, h, hm]

theorem mergeDict_nodupKeys (d : Dict) :
    ∀ m : MDict, (m.map Prod.fst).Nodup → ((mergeDict m d).map Prod.fst).Nodup := by
  induction d with
  | nil => intro m h; simpa [mergeDict] using h
  | cons p rest ih =>
    intro m h
    have step : mergeDict m (p :: rest) = mergeDict (minsert m p.1 p.2) rest := rfl
    rw [step]
    exact ih _ (minsert_nodupKeys h)

theorem runLineChecks_core_nodupKeys
    (cl : List (Nat → String → Option (Nat × String))) (n : Nat) (line : String) :
    ∀ m : MDict, (m.map Prod.fst).Nodup →
      ((cl.foldl
        (fun m chk =>
          match chk n line with
          | some p => minsert m p.1 p.2
          | none => m)
        m).map Prod.fst).Nodup := by
  induction cl with
  | nil => intro m h; simpa using h
  | cons chk rest ih =>
    intro m h
    cases hc : chk n line with
    | none => simpa [hc] using ih _ h
    | some p => simpa [hc] using ih _ (minsert_nodupKeys h)

theorem fileLineErrors_nodupKeys (lines : List String) :
    ((fileLineErrors lines).map Prod.fst).Nodup := by
  unfold fileLineErrors
  have gen : ∀ (ps : List (Nat × String)) (m : MDict), (m.map Prod.fst).Nodup →
      ((ps.foldl (fun m p => runLineChecks m (p.1 + 1) p.2) m).map Prod.fst).Nodup := by
    intro ps
    induction ps with
    | nil => intro m h; simpa using h
    | cons p rest ih =>
      intro m h
      exact ih _ (runLineChecks_core_nodupKeys lineCheckList (p.1 + 1) p.2 m h)
  exact gen lines.enum [] (by simp)

theorem print_results_pairwise (path : String) (m : MDict)
    (hnk : (m.map Prod.fst).Nodup) : (print_results_file path m).Pairwise emitLe := by
  unfold print_results_file
  have hperm : List.Perm (isort keyLe m) m := isort_perm keyLe m
  have hSnk : ((isort keyLe m).map Prod.fst).Nodup :=
    ((hperm.map Prod.fst).nodup_iff).mpr hnk
  have hSle : (isort keyLe m).Pairwise (fun a b => keyLe a b = true) :=
    isort_pairwise keyLe keyLe_total keyLe_trans m
  have hne : (isort keyLe m).Pairwise (fun a b => a.1 ≠ b.1) := by
    have h := hSnk
    rw [List.Nodup, List.pairwise_map] at h
    exact h
  have hSlt : (isort keyLe m).Pairwise (fun a b => a.1 < b.1) := by
    refine (hSle.and hne).imp ?_
    intro a b hab
    have h1 : a.1 ≤ b.1 := by
      have := hab.1
      simpa [keyLe] using this
    omega
  rw [List.pairwise_flatten]
  constructor
  · intro bl hbl
    obtain ⟨p, hp, rfl⟩ := List.mem_map.mp hbl
    rw [List.pairwise_map]
    have hmsg : (isort strLe p.2).Pairwise (fun a b => strLe a b = true) :=
      isort_pairwise strLe strLe_total strLe_trans p.2
    exact hmsg.imp (fun h => Or.inr ⟨rfl, h⟩)
  · rw [List.pairwise_map]
    refine hSlt.imp ?_
    intro p q hpq
    intro x hx y hy
    obtain ⟨mx, hmx, rfl⟩ := List.mem_map.mp hx
    obtain ⟨my, hmy, rfl⟩ := List.mem_map.mp hy
    exact Or.inl hpq

/-- C3: for every file whose analysis returns a diagnostics mapping, the
emitted sequence is non-decreasing in line number, and diagnostics sharing a
line are emitted in ascending lexicographic order of their full message
strings; moreover the mapping holds one entry per line. -/
theorem c3_order_thm :
    ∀ (path : String) (lines : List String) (parsed : Except String PyNode) (m : MDict),
      check_file lines parsed = Except.ok m →
      (m.map Prod.fst).Nodup ∧ (print_results_file path m).Pairwise emitLe := by
  intro path lines parsed m h
  cases parsed with
  | error e => simp [check_file] at h
  | ok tree =>
    have hm : m =
        mergeDict (mergeDict (fileLineErrors lines) (blank_line_check lines))
          (ast_checks tree) := by
      have h' := h
      simp only [check_file] at h'
      exact (Except.ok.injEq _ _).mp h'.symm
    have hnk : (m.map Prod.fst).Nodup := by
      rw [hm]
      exact mergeDict_nodupKeys _ _
        (mergeDict_nodupKeys _ _ (fileLineErrors_nodupKeys lines))
    exact ⟨hnk, print_results_pairwise path m hnk⟩

/-- Witness for C3: a two-line file whose diagnostics land on lines 1 and 2
is emitted sorted. -/
theorem c3_witness :
    (([(1, ["S003 Unnecessary semicolon after a statement"]), (2, ["S005 TODO found"])] :
        MDict).map Prod.fst).Nodup ∧
      (print_results_file "f.py"
        [(1, ["S003 Unnecessary semicolon after a statement"]),
         (2, ["S005 TODO found"])]).Pairwise emitLe := by
  apply c3_order_thm "f.py" ["x = 1 ;", "# TODO"]
    (Except.ok (PyNode.moduleNode PyForest.nil))
  simp only [check_file, ast_checks, bfsWalk, PyNode.childList, PyForest.toList,
    astCheckNode, List.nil_append, List.append_nil]
  rfl

/-- C9 is the intended reading, but the code disagrees on lines that carry a
trailing newline: the first line of `seventyNineText` holds exactly 79
characters of content — by the claim (content length not exceeding 79) no
S001 is due — yet the raw line Python iteration yields ends in `'\n'`, its
`len` is 80, and `line_length_check` (and hence the whole analysis) emits
S001 for it. -/
theorem c9_newline_length_bug :
    pyLines seventyNineText =
        [String.mk (List.replicate 79 'a' ++ ['\n']), "b = 1"] ∧
      (String.mk (List.replicate 79 'a')).length = 79 ∧
      line_length_check 1 (String.mk (List.replicate 79 'a' ++ ['\n'])) =
        some (1, "S001 Too long") ∧
      check_file (pyLines seventyNineText) (Except.ok (PyNode.moduleNode PyForest.nil)) =
        Except.ok [(1, ["S001 Too long"])] := by
  refine ⟨by decide, by decide, by decide, ?_⟩
  simp only [check_file, ast_checks, bfsWalk, PyNode.childList, PyForest.toList,
    astCheckNode, List.nil_append, List.append_nil]
  rfl
